import Mathlib

/-!
Verification of the arena/handle subsystem of rv6 (kernel-rs/src/arena.rs).

The two allocation strategies — the fixed-slab `ArrayArena` and the
recency-ordered `MruArena` — are embedded shallowly.  Reference counts are
`Nat`, slot data is a type parameter `T`, the match predicate is `T → Bool`,
and initializers / finalizers are `T → T` state transformers.  A handle is the
index of the slot it points to (the source uses a raw pointer into the fixed
entry array; with the arena lock held, a pointer into the array and the
array index carry the same information).  Operations return the new arena
state together with observation fields (which slot was handed out, whether
the initializer ran, what the finalizer saw), so that event-ordering
properties of the source can be stated.

The intrusive doubly-linked list used by `MruArena` (crate::list) is not part
of the sources given; its use is modelled from the spec as a sequence of slot
indices, front first: `push_front`/`push_back` add at the head/tail of the
sequence, `remove` deletes the node (each slot is linked exactly once, so
deleting the first occurrence of its index), iteration visits front to back
and reversed iteration back to front.
-/

namespace Rv6

/-- Embeds `ArrayEntry<T> { refcnt: usize, data: T }`. -/
structure ArrayEntry (T : Type) where
  refcnt : Nat
  data : T
deriving DecidableEq, Repr

/-- Embeds `ArrayArena<T, CAPACITY> { entries: [ArrayEntry<T>; CAPACITY] }`:
the fixed entry array is modelled as the list of its entries (capacity =
length). -/
abbrev ArrayArena (T : Type) := List (ArrayEntry T)

/-- The reference count of slot `i`, 0 for an out-of-range index. -/
def refcntAt {T : Type} (s : ArrayArena T) (i : Nat) : Nat :=
  match s[i]? with
  | some e => e.refcnt
  | none => 0

/-- The data of slot `i`, if in range. -/
def dataAt {T : Type} (s : ArrayArena T) (i : Nat) : Option T :=
  match s[i]? with
  | some e => some e.data
  | none => none

/-- Outcome of the scan loop of `find_or_alloc_handle`: either a match was
returned from inside the loop, or the loop finished with the recorded empty
candidate (`none` embeds the null pointer). -/
inductive ScanResult where
  | matched (i : Nat)
  | noMatch (empty : Option Nat)
deriving DecidableEq, Repr

namespace ArrayArena

/-- The scan loop of `Spinlock<ArrayArena>::find_or_alloc_handle`
(arena.rs:191-202), entry by entry: an occupied entry that satisfies `c` is
returned as a match; at the first empty entry (`refcnt == 0` while the
`empty` pointer is still null) the loop records it and `break`s. -/
def foaScan {T : Type} (c : T → Bool) :
    List (ArrayEntry T) → Nat → Option Nat → ScanResult
  | [], _, empty => .noMatch empty
  | e :: rest, i, empty =>
    if e.refcnt ≠ 0 then
      if c e.data then .matched i
      else foaScan c rest (i + 1) empty
    else if empty.isNone then
      .noMatch (some i)
    else
      foaScan c rest (i + 1) empty

end ArrayArena

/-- Result of `find_or_alloc_handle` / `alloc_handle`: the handle (slot
index) if any, the arena after the call, and whether the initializer closure
was run. -/
structure AllocOut (T : Type) where
  handle : Option Nat
  arena : ArrayArena T
  initRan : Bool
deriving DecidableEq, Repr

namespace ArrayArena

/-- Embeds `Spinlock<ArrayArena>::find_or_alloc_handle` (arena.rs:183-214).
On a match the entry's refcount is incremented and its handle returned; if
the scan ended with a null `empty` the call returns `None`; otherwise the
recorded empty entry gets `refcnt = 1`, the initializer `n` runs on its data,
and its handle is returned. -/
def find_or_alloc_handle {T : Type} (s : ArrayArena T) (c : T → Bool)
    (n : T → T) : AllocOut T :=
  match foaScan c s 0 none with
  | .matched i =>
    match s[i]? with
    | some e => ⟨some i, s.set i ⟨e.refcnt + 1, e.data⟩, false⟩
    | none => ⟨none, s, false⟩
  | .noMatch none => ⟨none, s, false⟩
  | .noMatch (some i) =>
    match s[i]? with
    | some e => ⟨some i, s.set i ⟨1, n e.data⟩, true⟩
    | none => ⟨none, s, false⟩

/-- The scan loop of `Spinlock<ArrayArena>::alloc_handle` (arena.rs:219-226):
the first entry with `refcnt == 0`, by index. -/
def allocScan {T : Type} : List (ArrayEntry T) → Nat → Option Nat
  | [], _ => none
  | e :: rest, i => if e.refcnt = 0 then some i else allocScan rest (i + 1)

/-- Embeds `Spinlock<ArrayArena>::alloc_handle` (arena.rs:216-229): the first
empty entry gets `refcnt = 1` and the initializer `f`; `None` if all entries
are referenced. -/
def alloc_handle {T : Type} (s : ArrayArena T) (f : T → T) : AllocOut T :=
  match allocScan s 0 with
  | some i =>
    match s[i]? with
    | some e => ⟨some i, s.set i ⟨1, f e.data⟩, true⟩
    | none => ⟨none, s, false⟩
  | none => ⟨none, s, false⟩

/-- Embeds `Spinlock<ArrayArena>::dup` (arena.rs:234-245): increments the
refcount of the slot the handle points to. -/
def dup {T : Type} (s : ArrayArena T) (i : Nat) : ArrayArena T :=
  match s[i]? with
  | some e => s.set i ⟨e.refcnt + 1, e.data⟩
  | none => s

end ArrayArena

/-- Result of `dealloc`: the arena after the call, and — when
`finalize` was invoked — the slot's refcount at the moment of the
invocation. -/
structure DeallocOut (T : Type) where
  arena : ArrayArena T
  finObs : Option Nat
deriving DecidableEq, Repr

namespace ArrayArena

/-- Embeds `Spinlock<ArrayArena>::dealloc` (arena.rs:250-261): when the
refcount is 1, `finalize` runs on the data (modelled by `fin`) before the
decrement; then the refcount is decremented.  `finObs` records the refcount
the slot had while `finalize` ran (`none` when `finalize` was not invoked). -/
def dealloc {T : Type} (s : ArrayArena T) (i : Nat) (fin : T → T) :
    DeallocOut T :=
  match s[i]? with
  | some e =>
    if e.refcnt = 1 then
      ⟨s.set i ⟨e.refcnt - 1, fin e.data⟩, some e.refcnt⟩
    else
      ⟨s.set i ⟨e.refcnt - 1, e.data⟩, none⟩
  | none => ⟨s, none⟩

end ArrayArena

/-- Embeds `MruEntry<T> { list_entry: ListEntry, refcnt: usize, data: T }`.
The intrusive `list_entry` link is represented outside the entry, by the
position of the entry's index in `MruArena.list`. -/
structure MruEntry (T : Type) where
  refcnt : Nat
  data : T
deriving DecidableEq, Repr

/-- Embeds `MruArena<T, CAPACITY> { entries: [MruEntry<T>; CAPACITY],
list: List<MruEntry<T>> }`.  `entries` is the fixed entry array as a list;
`list` is the recency list, modelled from the spec as the sequence of slot
indices it links, front first. -/
structure MruArena (T : Type) where
  entries : List (MruEntry T)
  list : List Nat
deriving DecidableEq, Repr

/-- The reference count of slot `i` of an `MruArena`, 0 when out of range. -/
def mruRefcntAt {T : Type} (s : MruArena T) (i : Nat) : Nat :=
  match s.entries[i]? with
  | some e => e.refcnt
  | none => 0

/-- The data of slot `i` of an `MruArena`, if in range. -/
def mruDataAt {T : Type} (s : MruArena T) (i : Nat) : Option T :=
  match s.entries[i]? with
  | some e => some e.data
  | none => none

namespace MruArena

/-- Embeds `MruArena::init` (arena.rs:307-315): every entry, in array order,
is pushed at the front of the list, so the list reads `[C-1, ..., 1, 0]`. -/
def init (capacity : Nat) : List Nat :=
  (List.range capacity).reverse

/-- The scan loop of `Spinlock<MruArena>::find_or_alloc_handle`
(arena.rs:347-360), over the recency list front to back: an entry whose data
satisfies `c` is returned as a match — with no test of its refcount; an entry
with `refcnt == 0` overwrites the `empty` candidate and the scan continues. -/
def foaScan {T : Type} (entries : List (MruEntry T)) (c : T → Bool) :
    List Nat → Option Nat → ScanResult
  | [], empty => .noMatch empty
  | i :: rest, empty =>
    match entries[i]? with
    | some e =>
      if c e.data then .matched i
      else if e.refcnt = 0 then foaScan entries c rest (some i)
      else foaScan entries c rest empty
    | none => foaScan entries c rest empty

end MruArena

/-- Result of the `MruArena` allocation calls: the handle, the arena after
the call (list order included), and whether the initializer was run. -/
structure MruAllocOut (T : Type) where
  handle : Option Nat
  arena : MruArena T
  initRan : Bool
deriving DecidableEq, Repr

namespace MruArena

/-- Embeds `Spinlock<MruArena>::find_or_alloc_handle` (arena.rs:339-373).
On a match the entry's refcount is incremented; otherwise, if some
unreferenced entry was seen, the last such one gets `refcnt = 1` and the
initializer `n`.  The recency list is not reordered by this call. -/
def find_or_alloc_handle {T : Type} (s : MruArena T) (c : T → Bool)
    (n : T → T) : MruAllocOut T :=
  match foaScan s.entries c s.list none with
  | .matched i =>
    match s.entries[i]? with
    | some e => ⟨some i, ⟨s.entries.set i ⟨e.refcnt + 1, e.data⟩, s.list⟩, false⟩
    | none => ⟨none, s, false⟩
  | .noMatch none => ⟨none, s, false⟩
  | .noMatch (some i) =>
    match s.entries[i]? with
    | some e => ⟨some i, ⟨s.entries.set i ⟨1, n e.data⟩, s.list⟩, true⟩
    | none => ⟨none, s, false⟩

/-- The scan loop of `Spinlock<MruArena>::alloc_handle` (arena.rs:379-391):
the first entry with `refcnt == 0` along the given traversal of the list
(the caller passes the reversed list, embedding `iter_unchecked().rev()`). -/
def allocScan {T : Type} (entries : List (MruEntry T)) :
    List Nat → Option Nat
  | [] => none
  | i :: rest =>
    match entries[i]? with
    | some e => if e.refcnt = 0 then some i else allocScan entries rest
    | none => allocScan entries rest

/-- Embeds `Spinlock<MruArena>::alloc_handle` (arena.rs:376-394): iterates
the recency list in reverse (back to front); the first unreferenced entry
gets `refcnt = 1` and the initializer `f`.  The list is not reordered. -/
def alloc_handle {T : Type} (s : MruArena T) (f : T → T) : MruAllocOut T :=
  match allocScan s.entries s.list.reverse with
  | some i =>
    match s.entries[i]? with
    | some e => ⟨some i, ⟨s.entries.set i ⟨1, f e.data⟩, s.list⟩, true⟩
    | none => ⟨none, s, false⟩
  | none => ⟨none, s, false⟩

/-- Embeds `Spinlock<MruArena>::dup` (arena.rs:399-409): increments the
refcount of the slot the handle points to; the list is untouched. -/
def dup {T : Type} (s : MruArena T) (i : Nat) : MruArena T :=
  match s.entries[i]? with
  | some e => ⟨s.entries.set i ⟨e.refcnt + 1, e.data⟩, s.list⟩
  | none => s

end MruArena

/-- Result of `MruArena::dealloc`: the arena after the call and — when
`finalize` was invoked — the refcount of the slot and the recency list as
they stood at the moment of the invocation. -/
structure MruDeallocOut (T : Type) where
  arena : MruArena T
  finObs : Option (Nat × List Nat)
deriving DecidableEq, Repr

namespace MruArena

/-- Embeds `Spinlock<MruArena>::dealloc` (arena.rs:414-430): when the
refcount is 1, `finalize` (modelled by `fin`) runs on the data first; the
refcount is then decremented; when it reaches 0 the entry is unlinked from
its list position (`list_entry.remove()`) and pushed at the back of the list
(`list.push_back`).  `finObs` records refcount and list as `finalize` saw
them. -/
def dealloc {T : Type} (s : MruArena T) (i : Nat) (fin : T → T) :
    MruDeallocOut T :=
  match s.entries[i]? with
  | some e =>
    let obs := if e.refcnt = 1 then some (e.refcnt, s.list) else none
    let d := if e.refcnt = 1 then fin e.data else e.data
    let r := e.refcnt - 1
    let list := if r = 0 then (s.list.erase i) ++ [i] else s.list
    ⟨⟨s.entries.set i ⟨r, d⟩, list⟩, obs⟩
  | none => ⟨s, none⟩

end MruArena

/-! Trace layer: the four arena operations as a step function, instrumented
with the slot on which `finalize` was invoked during the step (if any).  The
bodies of `find_or_alloc_handle`, `alloc_handle` and `dup` contain no call to
`finalize` in the source, so those steps report none. -/

/-- One call against a `Spinlock<ArrayArena>`. -/
inductive ArrayOp (T : Type) where
  | foa (c : T → Bool) (n : T → T)
  | alloc (f : T → T)
  | dup (i : Nat)
  | dealloc (i : Nat) (fin : T → T)

/-- Run one `ArrayArena` call; the second component is the slot whose data
`finalize` was invoked on during the call, if any. -/
def ArrayArena.step {T : Type} (s : ArrayArena T) :
    ArrayOp T → ArrayArena T × Option Nat
  | .foa c n => ((s.find_or_alloc_handle c n).arena, none)
  | .alloc f => ((s.alloc_handle f).arena, none)
  | .dup i => (s.dup i, none)
  | .dealloc i fin =>
    let out := s.dealloc i fin
    (out.arena, if out.finObs.isSome then some i else none)

/-- Number of `finalize` invocations on slot `i` along a call sequence. -/
def ArrayArena.finCount {T : Type} (s : ArrayArena T) (i : Nat) :
    List (ArrayOp T) → Nat
  | [] => 0
  | op :: rest =>
    (if (s.step op).2 = some i then 1 else 0) + finCount (s.step op).1 i rest

/-- Number of steps along a call sequence at which slot `i`'s refcount goes
from 1 to 0. -/
def ArrayArena.dropCount {T : Type} (s : ArrayArena T) (i : Nat) :
    List (ArrayOp T) → Nat
  | [] => 0
  | op :: rest =>
    (if refcntAt s i = 1 ∧ refcntAt (s.step op).1 i = 0 then 1 else 0) +
      dropCount (s.step op).1 i rest

/-- One call against a `Spinlock<MruArena>`. -/
inductive MruOp (T : Type) where
  | foa (c : T → Bool) (n : T → T)
  | alloc (f : T → T)
  | dup (i : Nat)
  | dealloc (i : Nat) (fin : T → T)

/-- Run one `MruArena` call; the second component is the slot whose data
`finalize` was invoked on during the call, if any. -/
def MruArena.step {T : Type} (s : MruArena T) :
    MruOp T → MruArena T × Option Nat
  | .foa c n => ((s.find_or_alloc_handle c n).arena, none)
  | .alloc f => ((s.alloc_handle f).arena, none)
  | .dup i => (s.dup i, none)
  | .dealloc i fin =>
    let out := s.dealloc i fin
    (out.arena, if out.finObs.isSome then some i else none)

/-- Number of `finalize` invocations on slot `i` along a call sequence. -/
def MruArena.finCount {T : Type} (s : MruArena T) (i : Nat) :
    List (MruOp T) → Nat
  | [] => 0
  | op :: rest =>
    (if (s.step op).2 = some i then 1 else 0) + finCount (s.step op).1 i rest

/-- Number of steps along a call sequence at which slot `i`'s refcount goes
from 1 to 0. -/
def MruArena.dropCount {T : Type} (s : MruArena T) (i : Nat) :
    List (MruOp T) → Nat
  | [] => 0
  | op :: rest =>
    (if mruRefcntAt s i = 1 ∧ mruRefcntAt (s.step op).1 i = 0 then 1 else 0) +
      dropCount (s.step op).1 i rest

/-- Observation helper: slot `k` of an `MruArena` entry array exists and its
data satisfies the predicate `c` (the test the MRU scan loop applies to every
entry it visits). -/
def slotMatches {T : Type} (entries : List (MruEntry T)) (c : T → Bool)
    (k : Nat) : Bool :=
  match entries[k]? with
  | some e => c e.data
  | none => false

/-- Observation helper: slot `k` of an `MruArena` entry array exists and is
unreferenced. -/
def slotFree {T : Type} (entries : List (MruEntry T)) (k : Nat) : Bool :=
  match entries[k]? with
  | some e => e.refcnt == 0
  | none => false

/-! Handle drop behaviour.  `impl Drop for ArrayPtr` (arena.rs:168-174) and
`impl Drop for MruPtr` (arena.rs:325-331) consist of a single unconditional
`panic!`; the implicit drop of a handle is modelled as the abort outcome it
produces, independent of any state. -/

/-- Outcome of implicitly dropping a handle value. -/
inductive DropOutcome where
  | aborts (msg : String)
  | silent
deriving DecidableEq, Repr

/-- Embeds `impl Drop for ArrayPtr` (arena.rs:168-174): the drop glue
unconditionally panics. -/
def ArrayPtr.dropGlue : DropOutcome :=
  .aborts "ArrayPtr must never drop: use ArrayArena::dealloc instead."

/-- Embeds `impl Drop for MruPtr` (arena.rs:325-331): the drop glue
unconditionally panics. -/
def MruPtr.dropGlue : DropOutcome :=
  .aborts "MruPtr must never drop: use MruArena::dealloc instead."

/-! General list helpers. -/

theorem getElem?_set_same {α : Type} (l : List α) (m : Nat) (a b : α)
    (h : l[m]? = some a) : (l.set m b)[m]? = some b := by
  rw [List.getElem?_set_self', h]; rfl

theorem set_of_getElem? {α : Type} :
    ∀ (l : List α) (m : Nat) (a : α), l[m]? = some a → l.set m a = l
  | [], m, a, h => by cases h
  | x :: xs, 0, a, h => by
    simp only [List.getElem?_cons_zero] at h
    cases h
    rfl
  | x :: xs, m + 1, a, h => by
    simp only [List.getElem?_cons_succ] at h
    simp only [List.set]
    rw [set_of_getElem? xs m a h]

/-! Scan-loop lemmas for the fixed-slab arena. -/

namespace ArrayArena

theorem foaScan_matched_spec {T : Type} (c : T → Bool) :
    ∀ (l : List (ArrayEntry T)) (k : Nat) (acc : Option Nat) (j : Nat),
      foaScan c l k acc = .matched j →
      ∃ m e, l[m]? = some e ∧ j = k + m ∧ e.refcnt ≠ 0 ∧ c e.data = true
  | [], _, _, _, h => by cases h
  | e :: rest, k, acc, j, h => by
    by_cases hr : e.refcnt ≠ 0
    · by_cases hc : c e.data
      · refine ⟨0, e, List.getElem?_cons_zero, ?_, hr, hc⟩
        simp only [foaScan, if_pos hr, if_pos hc] at h
        cases h
        omega
      · simp only [foaScan, if_pos hr, if_neg hc] at h
        obtain ⟨m, e2, hg, hj, hr2, hc2⟩ := foaScan_matched_spec c rest (k + 1) acc j h
        exact ⟨m + 1, e2, by simpa using hg, by omega, hr2, hc2⟩
    · simp only [foaScan, if_neg hr] at h
      by_cases ha : acc.isNone
      · rw [if_pos ha] at h; cases h
      · rw [if_neg ha] at h
        obtain ⟨m, e2, hg, hj, hr2, hc2⟩ := foaScan_matched_spec c rest (k + 1) acc j h
        exact ⟨m + 1, e2, by simpa using hg, by omega, hr2, hc2⟩

theorem foaScan_empty_spec {T : Type} (c : T → Bool) :
    ∀ (l : List (ArrayEntry T)) (k : Nat) (j : Nat),
      foaScan c l k none = .noMatch (some j) →
      ∃ m e, l[m]? = some e ∧ j = k + m ∧ e.refcnt = 0
  | [], _, _, h => by cases h
  | e :: rest, k, j, h => by
    by_cases hr : e.refcnt ≠ 0
    · by_cases hc : c e.data
      · simp only [foaScan, if_pos hr, if_pos hc] at h; cases h
      · simp only [foaScan, if_pos hr, if_neg hc] at h
        obtain ⟨m, e2, hg, hj, hr2⟩ := foaScan_empty_spec c rest (k + 1) j h
        exact ⟨m + 1, e2, by simpa using hg, by omega, hr2⟩
    · simp only [foaScan, if_neg hr, Option.isNone_none, if_pos] at h
      cases h
      exact ⟨0, e, List.getElem?_cons_zero, by omega, by omega⟩

theorem foaScan_all_occupied {T : Type} (c : T → Bool) :
    ∀ (l : List (ArrayEntry T)) (k : Nat) (acc : Option Nat),
      (∀ e ∈ l, e.refcnt ≠ 0) → (∀ e ∈ l, c e.data = false) →
      foaScan c l k acc = .noMatch acc
  | [], _, _, _, _ => rfl
  | e :: rest, k, acc, ho, hc => by
    have hr : e.refcnt ≠ 0 := ho e (by simp)
    have hce : c e.data = false := hc e (by simp)
    simp only [foaScan, if_pos hr, hce, if_neg Bool.false_ne_true]
    exact foaScan_all_occupied c rest (k + 1) acc
      (fun x hx => ho x (List.mem_cons_of_mem e hx))
      (fun x hx => hc x (List.mem_cons_of_mem e hx))

theorem allocScan_spec {T : Type} :
    ∀ (l : List (ArrayEntry T)) (k : Nat) (j : Nat),
      allocScan l k = some j →
      ∃ m e, l[m]? = some e ∧ j = k + m ∧ e.refcnt = 0
  | [], _, _, h => by cases h
  | e :: rest, k, j, h => by
    by_cases hr : e.refcnt = 0
    · simp only [allocScan, if_pos hr] at h
      cases h
      exact ⟨0, e, List.getElem?_cons_zero, by omega, hr⟩
    · simp only [allocScan, if_neg hr] at h
      obtain ⟨m, e2, hg, hj, hr2⟩ := allocScan_spec rest (k + 1) j h
      exact ⟨m + 1, e2, by simpa using hg, by omega, hr2⟩

theorem allocScan_all_occupied {T : Type} :
    ∀ (l : List (ArrayEntry T)) (k : Nat),
      (∀ e ∈ l, e.refcnt ≠ 0) → allocScan l k = none
  | [], _, _ => rfl
  | e :: rest, k, ho => by
    have hr : e.refcnt ≠ 0 := ho e (by simp)
    simp only [allocScan, if_neg hr]
    exact allocScan_all_occupied rest (k + 1)
      (fun x hx => ho x (List.mem_cons_of_mem e hx))

end ArrayArena

/-! Scan-loop lemmas for the MRU arena. -/

namespace MruArena

theorem mruFoaScan_matched_spec {T : Type} (entries : List (MruEntry T))
    (c : T → Bool) :
    ∀ (order : List Nat) (acc : Option Nat) (j : Nat),
      foaScan entries c order acc = .matched j →
      ∃ pre post, order = pre ++ j :: post ∧
        (∀ k ∈ pre, slotMatches entries c k = false) ∧
        slotMatches entries c j = true
  | [], _, _, h => by cases h
  | i :: rest, acc, j, h => by
    match hg : entries[i]? with
    | some e =>
      by_cases hc : c e.data
      · simp only [foaScan, hg, if_pos hc] at h
        cases h
        exact ⟨[], rest, rfl, by simp, by simp [slotMatches, hg, hc]⟩
      · have hm : slotMatches entries c i = false := by
          simp [slotMatches, hg, hc]
        by_cases hr : e.refcnt = 0
        · simp only [foaScan, hg, if_neg hc, if_pos hr] at h
          obtain ⟨pre, post, ho, hpre, hj⟩ :=
            mruFoaScan_matched_spec entries c rest (some i) j h
          refine ⟨i :: pre, post, by rw [ho]; rfl, ?_, hj⟩
          intro k hk
          rcases List.mem_cons.mp hk with hk | hk
          · subst hk; exact hm
          · exact hpre k hk
        · simp only [foaScan, hg, if_neg hc, if_neg hr] at h
          obtain ⟨pre, post, ho, hpre, hj⟩ :=
            mruFoaScan_matched_spec entries c rest acc j h
          refine ⟨i :: pre, post, by rw [ho]; rfl, ?_, hj⟩
          intro k hk
          rcases List.mem_cons.mp hk with hk | hk
          · subst hk; exact hm
          · exact hpre k hk
    | none =>
      simp only [foaScan, hg] at h
      obtain ⟨pre, post, ho, hpre, hj⟩ :=
        mruFoaScan_matched_spec entries c rest acc j h
      refine ⟨i :: pre, post, by rw [ho]; rfl, ?_, hj⟩
      intro k hk
      rcases List.mem_cons.mp hk with hk | hk
      · subst hk; simp [slotMatches, hg]
      · exact hpre k hk

theorem foaScan_empty_aux {T : Type} (entries : List (MruEntry T))
    (c : T → Bool) :
    ∀ (order : List Nat) (acc : Option Nat) (j : Nat),
      (∀ k ∈ order, slotMatches entries c k = false) →
      foaScan entries c order acc = .noMatch (some j) →
      (acc = some j ∧ ∀ k ∈ order, slotFree entries k = false) ∨
      (∃ pre post, order = pre ++ j :: post ∧ slotFree entries j = true ∧
        ∀ k ∈ post, slotFree entries k = false)
  | [], acc, j, _, h => by
    left
    simp only [foaScan] at h
    cases h
    exact ⟨rfl, by simp⟩
  | i :: rest, acc, j, hnm, h => by
    have hmi : slotMatches entries c i = false := hnm i (by simp)
    have hrest : ∀ k ∈ rest, slotMatches entries c k = false :=
      fun k hk => hnm k (List.mem_cons_of_mem i hk)
    match hg : entries[i]? with
    | some e =>
      have hc : c e.data = false := by
        simpa [slotMatches, hg] using hmi
      by_cases hr : e.refcnt = 0
      · have hfi : slotFree entries i = true := by simp [slotFree, hg, hr]
        simp only [foaScan, hg, hc, if_neg Bool.false_ne_true, if_pos hr] at h
        rcases foaScan_empty_aux entries c rest (some i) j hrest h with
          ⟨hacc, hfr⟩ | ⟨pre, post, ho, hfj, hpost⟩
        · right
          cases hacc
          exact ⟨[], rest, rfl, hfi, hfr⟩
        · right
          exact ⟨i :: pre, post, by rw [ho]; rfl, hfj, hpost⟩
      · have hfi : slotFree entries i = false := by simp [slotFree, hg, hr]
        simp only [foaScan, hg, hc, if_neg Bool.false_ne_true, if_neg hr] at h
        rcases foaScan_empty_aux entries c rest acc j hrest h with
          ⟨hacc, hfr⟩ | ⟨pre, post, ho, hfj, hpost⟩
        · left
          refine ⟨hacc, ?_⟩
          intro k hk
          rcases List.mem_cons.mp hk with hk | hk
          · subst hk; exact hfi
          · exact hfr k hk
        · right
          exact ⟨i :: pre, post, by rw [ho]; rfl, hfj, hpost⟩
    | none =>
      have hfi : slotFree entries i = false := by simp [slotFree, hg]
      simp only [foaScan, hg] at h
      rcases foaScan_empty_aux entries c rest acc j hrest h with
        ⟨hacc, hfr⟩ | ⟨pre, post, ho, hfj, hpost⟩
      · left
        refine ⟨hacc, ?_⟩
        intro k hk
        rcases List.mem_cons.mp hk with hk | hk
        · subst hk; exact hfi
        · exact hfr k hk
      · right
        exact ⟨i :: pre, post, by rw [ho]; rfl, hfj, hpost⟩

theorem foaScan_free_acc {T : Type} (entries : List (MruEntry T))
    (c : T → Bool) :
    ∀ (order : List Nat) (acc : Option Nat) (j : Nat),
      (∀ k, acc = some k → slotFree entries k = true) →
      foaScan entries c order acc = .noMatch (some j) →
      slotFree entries j = true
  | [], acc, j, hacc, h => by
    simp only [foaScan] at h
    cases h
    exact hacc j rfl
  | i :: rest, acc, j, hacc, h => by
    match hg : entries[i]? with
    | some e =>
      by_cases hc : c e.data
      · simp only [foaScan, hg, if_pos hc] at h
        exact ScanResult.noConfusion h
      · by_cases hr : e.refcnt = 0
        · simp only [foaScan, hg, if_neg hc, if_pos hr] at h
          exact foaScan_free_acc entries c rest (some i) j
            (fun k hk => by cases hk; simp [slotFree, hg, hr]) h
        · simp only [foaScan, hg, if_neg hc, if_neg hr] at h
          exact foaScan_free_acc entries c rest acc j hacc h
    | none =>
      simp only [foaScan, hg] at h
      exact foaScan_free_acc entries c rest acc j hacc h

theorem mruFoaScan_all_occupied {T : Type} (entries : List (MruEntry T))
    (c : T → Bool) (ho : ∀ e ∈ entries, e.refcnt ≠ 0)
    (hc : ∀ e ∈ entries, c e.data = false) :
    ∀ (order : List Nat) (acc : Option Nat),
      foaScan entries c order acc = .noMatch acc
  | [], _ => rfl
  | i :: rest, acc => by
    match hg : entries[i]? with
    | some e =>
      have he := List.getElem?_mem hg
      simp only [foaScan, hg, hc e he, if_neg Bool.false_ne_true,
        if_neg (ho e he)]
      exact mruFoaScan_all_occupied entries c ho hc rest acc
    | none =>
      simp only [foaScan, hg]
      exact mruFoaScan_all_occupied entries c ho hc rest acc

theorem mruAllocScan_spec {T : Type} (entries : List (MruEntry T)) :
    ∀ (l : List Nat) (j : Nat),
      allocScan entries l = some j →
      ∃ pre post, l = pre ++ j :: post ∧
        (∀ k ∈ pre, slotFree entries k = false) ∧
        slotFree entries j = true
  | [], _, h => by cases h
  | i :: rest, j, h => by
    match hg : entries[i]? with
    | some e =>
      by_cases hr : e.refcnt = 0
      · simp only [allocScan, hg, if_pos hr] at h
        cases h
        exact ⟨[], rest, rfl, by simp, by simp [slotFree, hg, hr]⟩
      · simp only [allocScan, hg, if_neg hr] at h
        obtain ⟨pre, post, ho, hpre, hj⟩ := mruAllocScan_spec entries rest j h
        refine ⟨i :: pre, post, by rw [ho]; rfl, ?_, hj⟩
        intro k hk
        rcases List.mem_cons.mp hk with hk | hk
        · subst hk; simp [slotFree, hg, hr]
        · exact hpre k hk
    | none =>
      simp only [allocScan, hg] at h
      obtain ⟨pre, post, ho, hpre, hj⟩ := mruAllocScan_spec entries rest j h
      refine ⟨i :: pre, post, by rw [ho]; rfl, ?_, hj⟩
      intro k hk
      rcases List.mem_cons.mp hk with hk | hk
      · subst hk; simp [slotFree, hg]
      · exact hpre k hk

theorem mruAllocScan_all_occupied {T : Type} (entries : List (MruEntry T))
    (ho : ∀ e ∈ entries, e.refcnt ≠ 0) :
    ∀ (l : List Nat), allocScan entries l = none
  | [] => rfl
  | i :: rest => by
    match hg : entries[i]? with
    | some e =>
      simp only [allocScan, hg, if_neg (ho e (List.getElem?_mem hg))]
      exact mruAllocScan_all_occupied entries ho rest
    | none =>
      simp only [allocScan, hg]
      exact mruAllocScan_all_occupied entries ho rest

end MruArena

/-! Set/lookup interaction, and how each operation shapes the entry array. -/

theorem getElem?_set_cases {α : Type} (l : List α) (m : Nat) (a : α)
    (i : Nat) :
    (l.set m a)[i]? = l[i]? ∨ (i = m ∧ (l.set m a)[i]? = some a) := by
  by_cases h : i = m
  · subst h
    match hg : l[i]? with
    | some b =>
      right
      exact ⟨rfl, getElem?_set_same l i b a hg⟩
    | none =>
      left
      rw [List.set_eq_of_length_le, hg]
      exact Nat.le_of_lt_succ (Nat.lt_succ_of_le (by
        simpa using List.getElem?_eq_none_iff.mp hg))
  · left
    exact List.getElem?_set_ne (fun hh => h hh.symm)

theorem get_of_refcntAt_pos {T : Type} (s : ArrayArena T) (i : Nat)
    (h : refcntAt s i ≠ 0) :
    ∃ e, s[i]? = some e ∧ e.refcnt = refcntAt s i := by
  unfold refcntAt at h ⊢
  match hg : s[i]? with
  | some e => exact ⟨e, rfl, rfl⟩
  | none => simp [hg] at h

theorem mru_get_of_refcntAt_pos {T : Type} (s : MruArena T) (i : Nat)
    (h : mruRefcntAt s i ≠ 0) :
    ∃ e, s.entries[i]? = some e ∧ e.refcnt = mruRefcntAt s i := by
  unfold mruRefcntAt at h ⊢
  match hg : s.entries[i]? with
  | some e => exact ⟨e, rfl, rfl⟩
  | none => simp [hg] at h

theorem find_or_alloc_handle_shape {T : Type} (s : ArrayArena T)
    (c : T → Bool) (n : T → T) :
    (s.find_or_alloc_handle c n = ⟨none, s, false⟩) ∨
    (∃ j e, s[j]? = some e ∧ e.refcnt ≠ 0 ∧ c e.data = true ∧
      s.find_or_alloc_handle c n =
        ⟨some j, s.set j ⟨e.refcnt + 1, e.data⟩, false⟩) ∨
    (∃ j e, s[j]? = some e ∧ e.refcnt = 0 ∧
      s.find_or_alloc_handle c n = ⟨some j, s.set j ⟨1, n e.data⟩, true⟩) := by
  cases hsc : ArrayArena.foaScan c s 0 none with
  | matched j =>
    cases hg : s[j]? with
    | some e =>
      obtain ⟨m, e2, hg2, hm, hr2, hc2⟩ :=
        ArrayArena.foaScan_matched_spec c s 0 none j hsc
      have hmj : m = j := by omega
      subst hmj
      rw [hg] at hg2
      cases hg2
      refine Or.inr (Or.inl ⟨m, e, hg, hr2, hc2, ?_⟩)
      simp only [ArrayArena.find_or_alloc_handle, hsc, hg]
    | none =>
      refine Or.inl ?_
      simp only [ArrayArena.find_or_alloc_handle, hsc, hg]
  | noMatch acc =>
    cases acc with
    | none =>
      refine Or.inl ?_
      simp only [ArrayArena.find_or_alloc_handle, hsc]
    | some j =>
      cases hg : s[j]? with
      | some e =>
        obtain ⟨m, e2, hg2, hm, hr2⟩ :=
          ArrayArena.foaScan_empty_spec c s 0 j hsc
        have hmj : m = j := by omega
        subst hmj
        rw [hg] at hg2
        cases hg2
        refine Or.inr (Or.inr ⟨m, e, hg, hr2, ?_⟩)
        simp only [ArrayArena.find_or_alloc_handle, hsc, hg]
      | none =>
        refine Or.inl ?_
        simp only [ArrayArena.find_or_alloc_handle, hsc, hg]

theorem alloc_handle_shape {T : Type} (s : ArrayArena T) (f : T → T) :
    (s.alloc_handle f = ⟨none, s, false⟩) ∨
    (∃ j e, s[j]? = some e ∧ e.refcnt = 0 ∧
      s.alloc_handle f = ⟨some j, s.set j ⟨1, f e.data⟩, true⟩) := by
  cases hsc : ArrayArena.allocScan s 0 with
  | some j =>
    cases hg : s[j]? with
    | some e =>
      obtain ⟨m, e2, hg2, hm, hr2⟩ := ArrayArena.allocScan_spec s 0 j hsc
      have hmj : m = j := by omega
      subst hmj
      rw [hg] at hg2
      cases hg2
      refine Or.inr ⟨m, e, hg, hr2, ?_⟩
      simp only [ArrayArena.alloc_handle, hsc, hg]
    | none =>
      refine Or.inl ?_
      simp only [ArrayArena.alloc_handle, hsc, hg]
  | none =>
    refine Or.inl ?_
    simp only [ArrayArena.alloc_handle, hsc]

theorem dup_shape {T : Type} (s : ArrayArena T) (i : Nat) :
    (s.dup i = s) ∨
    (∃ e, s[i]? = some e ∧ s.dup i = s.set i ⟨e.refcnt + 1, e.data⟩) := by
  cases hg : s[i]? with
  | some e =>
    refine Or.inr ⟨e, rfl, ?_⟩
    simp only [ArrayArena.dup, hg]
  | none =>
    refine Or.inl ?_
    simp only [ArrayArena.dup, hg]

theorem dealloc_shape {T : Type} (s : ArrayArena T) (i : Nat) (fin : T → T) :
    (s[i]? = none ∧ s.dealloc i fin = ⟨s, none⟩) ∨
    (∃ e, s[i]? = some e ∧ e.refcnt = 1 ∧
      s.dealloc i fin = ⟨s.set i ⟨0, fin e.data⟩, some 1⟩) ∨
    (∃ e, s[i]? = some e ∧ e.refcnt ≠ 1 ∧
      s.dealloc i fin = ⟨s.set i ⟨e.refcnt - 1, e.data⟩, none⟩) := by
  cases hg : s[i]? with
  | some e =>
    by_cases hr : e.refcnt = 1
    · refine Or.inr (Or.inl ⟨e, rfl, hr, ?_⟩)
      simp [ArrayArena.dealloc, hg, hr]
    · refine Or.inr (Or.inr ⟨e, rfl, hr, ?_⟩)
      simp only [ArrayArena.dealloc, hg, if_neg hr]
  | none =>
    refine Or.inl ⟨rfl, ?_⟩
    simp only [ArrayArena.dealloc, hg]

theorem mru_find_or_alloc_handle_shape {T : Type} (s : MruArena T)
    (c : T → Bool) (n : T → T) :
    (s.find_or_alloc_handle c n = ⟨none, s, false⟩) ∨
    (∃ j e pre post, s.entries[j]? = some e ∧ c e.data = true ∧
      s.list = pre ++ j :: post ∧
      (∀ k ∈ pre, slotMatches s.entries c k = false) ∧
      s.find_or_alloc_handle c n =
        ⟨some j, ⟨s.entries.set j ⟨e.refcnt + 1, e.data⟩, s.list⟩, false⟩) ∨
    (∃ j e, s.entries[j]? = some e ∧ e.refcnt = 0 ∧
      s.find_or_alloc_handle c n =
        ⟨some j, ⟨s.entries.set j ⟨1, n e.data⟩, s.list⟩, true⟩) := by
  cases hsc : MruArena.foaScan s.entries c s.list none with
  | matched j =>
    cases hg : s.entries[j]? with
    | some e =>
      obtain ⟨pre, post, ho, hpre, hj⟩ :=
        MruArena.mruFoaScan_matched_spec s.entries c s.list none j hsc
      have hc : c e.data = true := by
        unfold slotMatches at hj
        rw [hg] at hj
        exact hj
      refine Or.inr (Or.inl ⟨j, e, pre, post, hg, hc, ho, hpre, ?_⟩)
      simp only [MruArena.find_or_alloc_handle, hsc, hg]
    | none =>
      refine Or.inl ?_
      simp only [MruArena.find_or_alloc_handle, hsc, hg]
  | noMatch acc =>
    cases acc with
    | none =>
      refine Or.inl ?_
      simp only [MruArena.find_or_alloc_handle, hsc]
    | some j =>
      cases hg : s.entries[j]? with
      | some e =>
        have hfree : slotFree s.entries j = true :=
          MruArena.foaScan_free_acc s.entries c s.list none j
            (fun k hk => Option.noConfusion hk) hsc
        have hr : e.refcnt = 0 := by
          unfold slotFree at hfree
          rw [hg] at hfree
          simpa using hfree
        refine Or.inr (Or.inr ⟨j, e, hg, hr, ?_⟩)
        simp only [MruArena.find_or_alloc_handle, hsc, hg]
      | none =>
        refine Or.inl ?_
        simp only [MruArena.find_or_alloc_handle, hsc, hg]

theorem mru_alloc_handle_shape {T : Type} (s : MruArena T) (f : T → T) :
    (s.alloc_handle f = ⟨none, s, false⟩) ∨
    (∃ j e pre post, s.entries[j]? = some e ∧ e.refcnt = 0 ∧
      s.list.reverse = pre ++ j :: post ∧
      (∀ k ∈ pre, slotFree s.entries k = false) ∧
      s.alloc_handle f =
        ⟨some j, ⟨s.entries.set j ⟨1, f e.data⟩, s.list⟩, true⟩) := by
  cases hsc : MruArena.allocScan s.entries s.list.reverse with
  | some j =>
    cases hg : s.entries[j]? with
    | some e =>
      obtain ⟨pre, post, ho, hpre, hj⟩ :=
        MruArena.mruAllocScan_spec s.entries s.list.reverse j hsc
      have hr : e.refcnt = 0 := by
        unfold slotFree at hj
        rw [hg] at hj
        simpa using hj
      refine Or.inr ⟨j, e, pre, post, hg, hr, ho, hpre, ?_⟩
      simp only [MruArena.alloc_handle, hsc, hg]
    | none =>
      obtain ⟨pre, post, ho, hpre, hj⟩ :=
        MruArena.mruAllocScan_spec s.entries s.list.reverse j hsc
      unfold slotFree at hj
      rw [hg] at hj
      cases hj
  | none =>
    refine Or.inl ?_
    simp only [MruArena.alloc_handle, hsc]

theorem mru_dup_shape {T : Type} (s : MruArena T) (i : Nat) :
    (s.dup i = s) ∨
    (∃ e, s.entries[i]? = some e ∧
      s.dup i = ⟨s.entries.set i ⟨e.refcnt + 1, e.data⟩, s.list⟩) := by
  cases hg : s.entries[i]? with
  | some e =>
    refine Or.inr ⟨e, rfl, ?_⟩
    simp only [MruArena.dup, hg]
  | none =>
    refine Or.inl ?_
    simp only [MruArena.dup, hg]

theorem mru_dealloc_shape {T : Type} (s : MruArena T) (i : Nat)
    (fin : T → T) :
    (s.entries[i]? = none ∧ s.dealloc i fin = ⟨s, none⟩) ∨
    (∃ e, s.entries[i]? = some e ∧ e.refcnt = 1 ∧
      s.dealloc i fin =
        ⟨⟨s.entries.set i ⟨0, fin e.data⟩, s.list.erase i ++ [i]⟩,
          some (1, s.list)⟩) ∨
    (∃ e, s.entries[i]? = some e ∧ e.refcnt ≠ 1 ∧
      s.dealloc i fin =
        ⟨⟨s.entries.set i ⟨e.refcnt - 1, e.data⟩,
          if e.refcnt - 1 = 0 then s.list.erase i ++ [i] else s.list⟩,
          none⟩) := by
  cases hg : s.entries[i]? with
  | some e =>
    by_cases hr : e.refcnt = 1
    · refine Or.inr (Or.inl ⟨e, rfl, hr, ?_⟩)
      simp [MruArena.dealloc, hg, hr]
    · refine Or.inr (Or.inr ⟨e, rfl, hr, ?_⟩)
      simp only [MruArena.dealloc, hg, if_neg hr]
  | none =>
    refine Or.inl ⟨rfl, ?_⟩
    simp only [MruArena.dealloc, hg]

/-! Claim theorems. -/

/-- C9: letting a handle value go out of scope without `dealloc` is a
detected runtime fault.  The drop glue of `ArrayPtr` (arena.rs:168-174) and
of `MruPtr` (arena.rs:325-331) is a single unconditional panic, so an
implicit drop always aborts with the fixed message and never returns
silently, making a silently leaked reference count impossible. -/
theorem handle_drop_aborts :
    ArrayPtr.dropGlue =
      DropOutcome.aborts
        "ArrayPtr must never drop: use ArrayArena::dealloc instead." ∧
    MruPtr.dropGlue =
      DropOutcome.aborts
        "MruPtr must never drop: use MruArena::dealloc instead." :=
  ⟨rfl, rfl⟩

/-- C1: divergence of the code from the claim, at a concrete input.  In a
two-slot fixed-slab arena whose slot 0 is empty and whose slot 1 is occupied
(refcount 1) with data 5 matching the predicate, `find_or_alloc_handle`
returns a handle to slot 0, runs the initializer there (`initRan = true`,
data set to 7), and leaves the matching occupied slot 1 unreturned: the scan
loop `break`s at the first empty slot (arena.rs:200), so occupied slots
after it are never examined, and a fresh slot is allocated even though an
occupied slot matches. -/
theorem arrayFoa_early_empty_shadows_match :
    refcntAt ([⟨0, 99⟩, ⟨1, 5⟩] : ArrayArena Nat) 1 = 1 ∧
    dataAt ([⟨0, 99⟩, ⟨1, 5⟩] : ArrayArena Nat) 1 = some 5 ∧
    (fun d => d == 5) (5 : Nat) = true ∧
    ArrayArena.find_or_alloc_handle ([⟨0, 99⟩, ⟨1, 5⟩] : ArrayArena Nat)
      (fun d => d == 5) (fun _ => 7) = ⟨some 0, [⟨1, 7⟩, ⟨1, 5⟩], true⟩ := by
  decide

/-- C2: counterexample.  In an MRU arena with a single slot whose refcount
is 0 but whose stale data 5 satisfies the predicate,
`find_or_alloc_handle` returns that slot as a deduplicated match: its
refcount is incremented from 0 to 1 and the initializer does not run —
exactly the outcome the claim says can never happen, because the MRU scan
(arena.rs:348) applies the predicate before ever looking at the
refcount. -/
theorem mruFoa_matches_unreferenced_slot :
    mruRefcntAt (⟨[⟨0, 5⟩], [0]⟩ : MruArena Nat) 0 = 0 ∧
    MruArena.find_or_alloc_handle (⟨[⟨0, 5⟩], [0]⟩ : MruArena Nat)
      (fun d => d == 5) (fun _ => 7) = ⟨some 0, ⟨[⟨1, 5⟩], [0]⟩, false⟩ := by
  decide

/-- C5: counterexample.  MRU arena with recency list `[0, 1, 2]` (front
first), slots 0 and 2 unreferenced, slot 1 occupied, and a predicate that
matches nothing.  The first unreferenced slot in scan order from the
most-recent end is slot 0, but the call allocates slot 2: the `empty`
fallback is overwritten at every unreferenced slot (arena.rs:358), so the
last unreferenced slot in scan order wins, not the first. -/
theorem mruFoa_fallback_not_first_free :
    slotFree ([⟨0, 10⟩, ⟨1, 11⟩, ⟨0, 12⟩] : List (MruEntry Nat)) 0 = true ∧
    (MruArena.find_or_alloc_handle
        (⟨[⟨0, 10⟩, ⟨1, 11⟩, ⟨0, 12⟩], [0, 1, 2]⟩ : MruArena Nat)
        (fun _ => false) (fun d => d + 100)) =
      ⟨some 2, ⟨[⟨0, 10⟩, ⟨1, 11⟩, ⟨1, 112⟩], [0, 1, 2]⟩, true⟩ := by
  decide

/-- C4: counterexample.  MRU arena with recency list `[2, 1, 0]`, slot 1
unreferenced, slots 0 and 2 at refcount 1.  Deallocating slot 2 relinks it
at the back of the list (`[1, 0, 2]`); the next `alloc_handle` returns that
very slot 2 — the slot at the relink end — although the unreferenced slot 1
sits nearer the opposite (front) end.  Allocation therefore consumes
candidates starting from the same end at which `dealloc` enqueues freed
slots, not from the opposite end as the claim states. -/
theorem mru_alloc_consumes_from_relink_end :
    (MruArena.dealloc (⟨[⟨1, 10⟩, ⟨0, 11⟩, ⟨1, 12⟩], [2, 1, 0]⟩ :
        MruArena Nat) 2 id).arena.list = [1, 0, 2] ∧
    slotFree (MruArena.dealloc (⟨[⟨1, 10⟩, ⟨0, 11⟩, ⟨1, 12⟩], [2, 1, 0]⟩ :
        MruArena Nat) 2 id).arena.entries 1 = true ∧
    (MruArena.alloc_handle
        (MruArena.dealloc (⟨[⟨1, 10⟩, ⟨0, 11⟩, ⟨1, 12⟩], [2, 1, 0]⟩ :
          MruArena Nat) 2 id).arena id).handle = some 2 := by
  decide

/-- C10: in a dealloc that releases the last reference, `finalize` runs
while the slot still appears occupied.  For both arenas, when the slot's
refcount is 1 the finalize observation records refcount 1 — the decrement
to 0 happens only after `finalize` returns — and, for the MRU arena, it also
records the untouched recency list, the relink to the back happening only
afterwards; when the refcount is not 1, `finalize` is not invoked at all. -/
theorem finalize_runs_before_release :
    (∀ (T : Type) (s : ArrayArena T) (i : Nat) (fin : T → T),
      refcntAt s i = 1 →
        (s.dealloc i fin).finObs = some 1 ∧
        refcntAt (s.dealloc i fin).arena i = 0) ∧
    (∀ (T : Type) (s : ArrayArena T) (i : Nat) (fin : T → T),
      refcntAt s i ≠ 1 → (s.dealloc i fin).finObs = none) ∧
    (∀ (T : Type) (s : MruArena T) (i : Nat) (fin : T → T),
      mruRefcntAt s i = 1 →
        (s.dealloc i fin).finObs = some (1, s.list) ∧
        mruRefcntAt (s.dealloc i fin).arena i = 0 ∧
        (s.dealloc i fin).arena.list = s.list.erase i ++ [i]) ∧
    (∀ (T : Type) (s : MruArena T) (i : Nat) (fin : T → T),
      mruRefcntAt s i ≠ 1 → (s.dealloc i fin).finObs = none) := by
  refine ⟨?_, ?_, ?_, ?_⟩
  · intro T s i fin h
    obtain ⟨e, hg, hr⟩ := get_of_refcntAt_pos s i (by omega)
    rw [h] at hr
    have hres : s.dealloc i fin = ⟨s.set i ⟨0, fin e.data⟩, some 1⟩ := by
      simp [ArrayArena.dealloc, hg, hr]
    rw [hres]
    refine ⟨rfl, ?_⟩
    unfold refcntAt
    rw [getElem?_set_same s i e _ hg]
  · intro T s i fin h
    rcases dealloc_shape s i fin with ⟨_, hres⟩ | ⟨e, hg, hr, hres⟩ |
      ⟨e, hg, hr, hres⟩
    · rw [hres]
    · exfalso
      apply h
      simp [refcntAt, hg, hr]
    · rw [hres]
  · intro T s i fin h
    obtain ⟨e, hg, hr⟩ := mru_get_of_refcntAt_pos s i (by omega)
    rw [h] at hr
    have hres : s.dealloc i fin =
        ⟨⟨s.entries.set i ⟨0, fin e.data⟩, s.list.erase i ++ [i]⟩,
          some (1, s.list)⟩ := by
      simp [MruArena.dealloc, hg, hr]
    rw [hres]
    refine ⟨rfl, ?_, rfl⟩
    unfold mruRefcntAt
    rw [getElem?_set_same s.entries i e _ hg]
  · intro T s i fin h
    rcases mru_dealloc_shape s i fin with ⟨_, hres⟩ | ⟨e, hg, hr, hres⟩ |
      ⟨e, hg, hr, hres⟩
    · rw [hres]
    · exfalso
      apply h
      simp [mruRefcntAt, hg, hr]
    · rw [hres]

/-- C10 witness: the characterization applied to concrete one-slot arenas
with refcount 1. -/
theorem finalize_runs_before_release_witness :
    (ArrayArena.dealloc ([⟨1, 42⟩] : ArrayArena Nat) 0 id).finObs = some 1 ∧
    (MruArena.dealloc (⟨[⟨1, 42⟩], [0]⟩ : MruArena Nat) 0 id).finObs =
      some (1, [0]) :=
  ⟨(finalize_runs_before_release.1 Nat [⟨1, 42⟩] 0 id rfl).1,
    (finalize_runs_before_release.2.2.1 Nat ⟨[⟨1, 42⟩], [0]⟩ 0 id rfl).1⟩

/-- C7: `dup` immediately followed by `dealloc` of the duplicate restores
the arena exactly, for any slot with refcount at least 1: the slot's
refcount and data return to their prior values, `finalize` is not invoked
(`finObs = none`), and — the MRU arena state being restored whole — the
recency list is unchanged. -/
theorem dup_dealloc_roundtrip :
    (∀ (T : Type) (s : ArrayArena T) (i : Nat) (fin : T → T),
      1 ≤ refcntAt s i → (s.dup i).dealloc i fin = ⟨s, none⟩) ∧
    (∀ (T : Type) (s : MruArena T) (i : Nat) (fin : T → T),
      1 ≤ mruRefcntAt s i → (s.dup i).dealloc i fin = ⟨s, none⟩) := by
  constructor
  · intro T s i fin h
    obtain ⟨e, hg, hrc⟩ := get_of_refcntAt_pos s i (by omega)
    obtain ⟨r, d⟩ := e
    have hr1 : 1 ≤ r := by
      simp only at hrc
      omega
    have hdup : s.dup i = s.set i ⟨r + 1, d⟩ := by
      simp [ArrayArena.dup, hg]
    rw [hdup]
    have hg2 : (s.set i ⟨r + 1, d⟩)[i]? = some ⟨r + 1, d⟩ :=
      getElem?_set_same s i ⟨r, d⟩ ⟨r + 1, d⟩ hg
    have hne : ¬(r + 1 = 1) := by omega
    have hres : ArrayArena.dealloc (s.set i ⟨r + 1, d⟩) i fin =
        ⟨(s.set i ⟨r + 1, d⟩).set i ⟨r + 1 - 1, d⟩, none⟩ := by
      simp [ArrayArena.dealloc, hg2, hne]
    rw [hres]
    have hback : (s.set i ⟨r + 1, d⟩).set i ⟨r + 1 - 1, d⟩ = s := by
      rw [List.set_set]
      have hsub : r + 1 - 1 = r := by omega
      rw [hsub]
      exact set_of_getElem? s i ⟨r, d⟩ hg
    rw [hback]
  · intro T s i fin h
    obtain ⟨e, hg, hrc⟩ := mru_get_of_refcntAt_pos s i (by omega)
    obtain ⟨r, d⟩ := e
    have hr1 : 1 ≤ r := by
      simp only at hrc
      omega
    have hdup : s.dup i = ⟨s.entries.set i ⟨r + 1, d⟩, s.list⟩ := by
      simp [MruArena.dup, hg]
    rw [hdup]
    have hg2 : (s.entries.set i ⟨r + 1, d⟩)[i]? = some ⟨r + 1, d⟩ :=
      getElem?_set_same s.entries i ⟨r, d⟩ ⟨r + 1, d⟩ hg
    have hne : ¬(r + 1 = 1) := by omega
    have hr0 : ¬(r = 0) := by omega
    have hres : (⟨s.entries.set i ⟨r + 1, d⟩, s.list⟩ : MruArena T).dealloc
        i fin =
        ⟨⟨(s.entries.set i ⟨r + 1, d⟩).set i ⟨r + 1 - 1, d⟩, s.list⟩,
          none⟩ := by
      simp [MruArena.dealloc, hg2, hne, hr0]
    rw [hres]
    have hback : (s.entries.set i ⟨r + 1, d⟩).set i ⟨r + 1 - 1, d⟩ =
        s.entries := by
      rw [List.set_set]
      have hsub : r + 1 - 1 = r := by omega
      rw [hsub]
      exact set_of_getElem? s.entries i ⟨r, d⟩ hg
    rw [hback]

/-- C7 witness: the roundtrip applied to concrete one-slot arenas. -/
theorem dup_dealloc_roundtrip_witness :
    (ArrayArena.dup ([⟨1, 42⟩] : ArrayArena Nat) 0).dealloc 0 id =
      ⟨[⟨1, 42⟩], none⟩ ∧
    (MruArena.dup (⟨[⟨2, 7⟩], [0]⟩ : MruArena Nat) 0).dealloc 0 id =
      ⟨⟨[⟨2, 7⟩], [0]⟩, none⟩ :=
  ⟨dup_dealloc_roundtrip.1 Nat [⟨1, 42⟩] 0 id (by decide),
    dup_dealloc_roundtrip.2 Nat ⟨[⟨2, 7⟩], [0]⟩ 0 id (by decide)⟩

/-- C6: when every slot is referenced, `alloc_handle` returns `None`, and
`find_or_alloc_handle` with a predicate matching no (occupied) slot returns
`None`; in both arenas the state is returned untouched and no initializer
runs.  `None` is by the return type the only failure either operation can
produce. -/
theorem exhausted_arena_returns_none :
    (∀ (T : Type) (s : ArrayArena T) (c : T → Bool) (n f : T → T),
      (∀ e ∈ s, e.refcnt ≠ 0) → (∀ e ∈ s, c e.data = false) →
        s.find_or_alloc_handle c n = ⟨none, s, false⟩ ∧
        s.alloc_handle f = ⟨none, s, false⟩) ∧
    (∀ (T : Type) (s : MruArena T) (c : T → Bool) (n f : T → T),
      (∀ e ∈ s.entries, e.refcnt ≠ 0) →
      (∀ e ∈ s.entries, c e.data = false) →
        s.find_or_alloc_handle c n = ⟨none, s, false⟩ ∧
        s.alloc_handle f = ⟨none, s, false⟩) := by
  constructor
  · intro T s c n f ho hc
    constructor
    · have hsc := ArrayArena.foaScan_all_occupied c s 0 none ho hc
      simp [ArrayArena.find_or_alloc_handle, hsc]
    · have hsc := ArrayArena.allocScan_all_occupied s 0 ho
      simp [ArrayArena.alloc_handle, hsc]
  · intro T s c n f ho hc
    constructor
    · have hsc := MruArena.mruFoaScan_all_occupied s.entries c ho hc s.list none
      simp [MruArena.find_or_alloc_handle, hsc]
    · have hsc := MruArena.mruAllocScan_all_occupied s.entries ho s.list.reverse
      simp [MruArena.alloc_handle, hsc]

/-- C6 witness: a full one-slot arena of each kind rejects a further
allocation and a non-matching find-or-alloc, untouched. -/
theorem exhausted_arena_returns_none_witness :
    ArrayArena.find_or_alloc_handle ([⟨1, 3⟩] : ArrayArena Nat)
      (fun _ => false) id = ⟨none, [⟨1, 3⟩], false⟩ ∧
    ArrayArena.alloc_handle ([⟨1, 3⟩] : ArrayArena Nat) id =
      ⟨none, [⟨1, 3⟩], false⟩ ∧
    MruArena.find_or_alloc_handle (⟨[⟨1, 3⟩], [0]⟩ : MruArena Nat)
      (fun _ => false) id = ⟨none, ⟨[⟨1, 3⟩], [0]⟩, false⟩ ∧
    MruArena.alloc_handle (⟨[⟨1, 3⟩], [0]⟩ : MruArena Nat) id =
      ⟨none, ⟨[⟨1, 3⟩], [0]⟩, false⟩ := by
  have h1 := exhausted_arena_returns_none.1 Nat [⟨1, 3⟩] (fun _ => false)
    id id (by decide) (by decide)
  have h2 := exhausted_arena_returns_none.2 Nat ⟨[⟨1, 3⟩], [0]⟩
    (fun _ => false) id id (by decide) (by decide)
  exact ⟨h1.1, h1.2, h2.1, h2.2⟩

/-! Data-preservation helpers for C8. -/

theorem dataAt_set_preserved {T : Type} (s : ArrayArena T) (m : Nat)
    (ent e : ArrayEntry T) (hg : s[m]? = some e) (hd : ent.data = e.data)
    (j : Nat) : dataAt (s.set m ent) j = dataAt s j := by
  unfold dataAt
  rcases getElem?_set_cases s m ent j with h | ⟨rfl, h⟩
  · rw [h]
  · simp [h, hg, hd]

theorem dataAt_set_unoccupied {T : Type} (s : ArrayArena T) (m : Nat)
    (ent e : ArrayEntry T) (hg : s[m]? = some e) (hr : e.refcnt = 0)
    (j : Nat) (hj : refcntAt s j ≠ 0) :
    dataAt (s.set m ent) j = dataAt s j := by
  have hne : j ≠ m := by
    intro hh
    subst hh
    apply hj
    simp [refcntAt, hg, hr]
  unfold dataAt
  rw [List.getElem?_set_ne (fun hh => hne hh.symm)]

theorem mruDataAt_set_preserved {T : Type} (s : MruArena T) (l2 : List Nat)
    (m : Nat) (ent e : MruEntry T) (hg : s.entries[m]? = some e)
    (hd : ent.data = e.data) (j : Nat) :
    mruDataAt ⟨s.entries.set m ent, l2⟩ j = mruDataAt s j := by
  unfold mruDataAt
  rcases getElem?_set_cases s.entries m ent j with h | ⟨rfl, h⟩
  · simp [h]
  · simp [h, hg, hd]

theorem mruDataAt_set_unoccupied {T : Type} (s : MruArena T) (l2 : List Nat)
    (m : Nat) (ent e : MruEntry T) (hg : s.entries[m]? = some e)
    (hr : e.refcnt = 0) (j : Nat) (hj : mruRefcntAt s j ≠ 0) :
    mruDataAt ⟨s.entries.set m ent, l2⟩ j = mruDataAt s j := by
  have hne : j ≠ m := by
    intro hh
    subst hh
    apply hj
    simp [mruRefcntAt, hg, hr]
  unfold mruDataAt
  simp [List.getElem?_set_ne (fun hh => hne hh.symm)]

/-- C8: initializers run only on free slots.  For `find_or_alloc_handle`
and `alloc_handle` of both arenas: whenever the initializer ran, the handed
out slot had refcount 0 before the call and refcount 1 after it; and every
slot whose refcount was positive keeps its data unchanged — no new logical
object is ever assigned to a referenced slot. -/
theorem init_only_on_free_slots :
    (∀ (T : Type) (s : ArrayArena T) (c : T → Bool) (n : T → T),
      ((s.find_or_alloc_handle c n).initRan = true →
        ∃ j, (s.find_or_alloc_handle c n).handle = some j ∧
          refcntAt s j = 0 ∧
          refcntAt (s.find_or_alloc_handle c n).arena j = 1) ∧
      (∀ j, refcntAt s j ≠ 0 →
        dataAt (s.find_or_alloc_handle c n).arena j = dataAt s j)) ∧
    (∀ (T : Type) (s : ArrayArena T) (f : T → T),
      ((s.alloc_handle f).initRan = true →
        ∃ j, (s.alloc_handle f).handle = some j ∧ refcntAt s j = 0 ∧
          refcntAt (s.alloc_handle f).arena j = 1) ∧
      (∀ j, refcntAt s j ≠ 0 →
        dataAt (s.alloc_handle f).arena j = dataAt s j)) ∧
    (∀ (T : Type) (s : MruArena T) (c : T → Bool) (n : T → T),
      ((s.find_or_alloc_handle c n).initRan = true →
        ∃ j, (s.find_or_alloc_handle c n).handle = some j ∧
          mruRefcntAt s j = 0 ∧
          mruRefcntAt (s.find_or_alloc_handle c n).arena j = 1) ∧
      (∀ j, mruRefcntAt s j ≠ 0 →
        mruDataAt (s.find_or_alloc_handle c n).arena j = mruDataAt s j)) ∧
    (∀ (T : Type) (s : MruArena T) (f : T → T),
      ((s.alloc_handle f).initRan = true →
        ∃ j, (s.alloc_handle f).handle = some j ∧ mruRefcntAt s j = 0 ∧
          mruRefcntAt (s.alloc_handle f).arena j = 1) ∧
      (∀ j, mruRefcntAt s j ≠ 0 →
        mruDataAt (s.alloc_handle f).arena j = mruDataAt s j)) := by
  refine ⟨?_, ?_, ?_, ?_⟩
  · intro T s c n
    rcases find_or_alloc_handle_shape s c n with hres |
      ⟨j, e, hg, hr, hc, hres⟩ | ⟨j, e, hg, hr, hres⟩
    · rw [hres]
      exact ⟨fun h => Bool.noConfusion h, fun j hj => rfl⟩
    · rw [hres]
      refine ⟨fun h => Bool.noConfusion h, fun m hm => ?_⟩
      exact dataAt_set_preserved s j ⟨e.refcnt + 1, e.data⟩ e hg rfl m
    · rw [hres]
      constructor
      · intro _
        refine ⟨j, rfl, by simp [refcntAt, hg, hr], ?_⟩
        simp [refcntAt, getElem?_set_same s j e ⟨1, n e.data⟩ hg]
      · intro m hm
        exact dataAt_set_unoccupied s j ⟨1, n e.data⟩ e hg hr m hm
  · intro T s f
    rcases alloc_handle_shape s f with hres | ⟨j, e, hg, hr, hres⟩
    · rw [hres]
      exact ⟨fun h => Bool.noConfusion h, fun j hj => rfl⟩
    · rw [hres]
      constructor
      · intro _
        refine ⟨j, rfl, by simp [refcntAt, hg, hr], ?_⟩
        simp [refcntAt, getElem?_set_same s j e ⟨1, f e.data⟩ hg]
      · intro m hm
        exact dataAt_set_unoccupied s j ⟨1, f e.data⟩ e hg hr m hm
  · intro T s c n
    rcases mru_find_or_alloc_handle_shape s c n with hres |
      ⟨j, e, pre, post, hg, hc, ho, hpre, hres⟩ | ⟨j, e, hg, hr, hres⟩
    · rw [hres]
      exact ⟨fun h => Bool.noConfusion h, fun j hj => rfl⟩
    · rw [hres]
      refine ⟨fun h => Bool.noConfusion h, fun m hm => ?_⟩
      exact mruDataAt_set_preserved s s.list j ⟨e.refcnt + 1, e.data⟩ e hg
        rfl m
    · rw [hres]
      constructor
      · intro _
        refine ⟨j, rfl, by simp [mruRefcntAt, hg, hr], ?_⟩
        simp [mruRefcntAt, getElem?_set_same s.entries j e ⟨1, n e.data⟩ hg]
      · intro m hm
        exact mruDataAt_set_unoccupied s s.list j ⟨1, n e.data⟩ e hg hr m hm
  · intro T s f
    rcases mru_alloc_handle_shape s f with hres |
      ⟨j, e, pre, post, hg, hr, ho, hpre, hres⟩
    · rw [hres]
      exact ⟨fun h => Bool.noConfusion h, fun j hj => rfl⟩
    · rw [hres]
      constructor
      · intro _
        refine ⟨j, rfl, by simp [mruRefcntAt, hg, hr], ?_⟩
        simp [mruRefcntAt, getElem?_set_same s.entries j e ⟨1, f e.data⟩ hg]
      · intro m hm
        exact mruDataAt_set_unoccupied s s.list j ⟨1, f e.data⟩ e hg hr m hm

/-- C8 witness: in concrete one-slot occupied arenas, a non-matching
find-or-alloc leaves the occupied slot's data unchanged. -/
theorem init_only_on_free_slots_witness :
    dataAt (ArrayArena.find_or_alloc_handle ([⟨1, 7⟩] : ArrayArena Nat)
      (fun _ => false) (fun _ => 9)).arena 0 =
      dataAt ([⟨1, 7⟩] : ArrayArena Nat) 0 ∧
    mruDataAt (MruArena.find_or_alloc_handle
      (⟨[⟨1, 7⟩], [0]⟩ : MruArena Nat) (fun _ => false) (fun _ => 9)).arena
      0 = mruDataAt (⟨[⟨1, 7⟩], [0]⟩ : MruArena Nat) 0 :=
  ⟨(init_only_on_free_slots.1 Nat [⟨1, 7⟩] (fun _ => false)
      (fun _ => 9)).2 0 (by decide),
    (init_only_on_free_slots.2.2.1 Nat ⟨[⟨1, 7⟩], [0]⟩ (fun _ => false)
      (fun _ => 9)).2 0 (by decide)⟩

/-- C2 (amended): how a deduplicated match is chosen.  For the fixed-slab
arena, a handle returned without running the initializer always points to a
slot that was occupied (refcount nonzero) and matching; its refcount is
incremented and its data kept.  For the MRU arena, such a handle points to
the first slot in recency-list order whose data satisfies the predicate —
with no condition on its refcount, so a refcount-0 slot with matching stale
data is returned as a match as well — its refcount incremented by one and
its data kept. -/
theorem foa_match_characterization :
    (∀ (T : Type) (s : ArrayArena T) (c : T → Bool) (n : T → T) (j : Nat),
      (s.find_or_alloc_handle c n).handle = some j →
      (s.find_or_alloc_handle c n).initRan = false →
        ∃ e, s[j]? = some e ∧ e.refcnt ≠ 0 ∧ c e.data = true ∧
          (s.find_or_alloc_handle c n).arena =
            s.set j ⟨e.refcnt + 1, e.data⟩) ∧
    (∀ (T : Type) (s : MruArena T) (c : T → Bool) (n : T → T) (j : Nat),
      (s.find_or_alloc_handle c n).handle = some j →
      (s.find_or_alloc_handle c n).initRan = false →
        ∃ e pre post, s.entries[j]? = some e ∧ c e.data = true ∧
          s.list = pre ++ j :: post ∧
          (∀ k ∈ pre, slotMatches s.entries c k = false) ∧
          (s.find_or_alloc_handle c n).arena =
            ⟨s.entries.set j ⟨e.refcnt + 1, e.data⟩, s.list⟩) := by
  constructor
  · intro T s c n j hh hini
    rcases find_or_alloc_handle_shape s c n with hres |
      ⟨m, e, hg, hr, hc, hres⟩ | ⟨m, e, hg, hr, hres⟩
    · rw [hres] at hh
      cases hh
    · rw [hres] at hh
      cases hh
      exact ⟨e, hg, hr, hc, by rw [hres]⟩
    · rw [hres] at hini
      cases hini
  · intro T s c n j hh hini
    rcases mru_find_or_alloc_handle_shape s c n with hres |
      ⟨m, e, pre, post, hg, hc, ho, hpre, hres⟩ | ⟨m, e, hg, hr, hres⟩
    · rw [hres] at hh
      cases hh
    · rw [hres] at hh
      cases hh
      exact ⟨e, pre, post, hg, hc, ho, hpre, by rw [hres]⟩
    · rw [hres] at hini
      cases hini

/-- C2 witness: the fixed-slab characterization applied to a one-slot
occupied arena whose slot matches. -/
theorem foa_match_characterization_witness :
    ∃ e, (([⟨1, 5⟩] : ArrayArena Nat))[0]? = some e ∧ e.refcnt ≠ 0 ∧
      (fun d => d == 5) e.data = true ∧
      (ArrayArena.find_or_alloc_handle ([⟨1, 5⟩] : ArrayArena Nat)
        (fun d => d == 5) id).arena =
        ([⟨1, 5⟩] : ArrayArena Nat).set 0 ⟨e.refcnt + 1, e.data⟩ :=
  foa_match_characterization.1 Nat [⟨1, 5⟩] (fun d => d == 5) id 0
    (by decide) (by decide)

/-- C5 (amended): when no slot's data matches the predicate and the MRU
find-or-alloc hands out a slot, the initializer runs and the chosen slot is
the last unreferenced slot encountered in the scan order from the
most-recent end — every slot after it in the recency list is referenced —
equivalently the unreferenced slot nearest the least-recent end, not the
first unreferenced slot seen. -/
theorem mruFoa_fallback_last_free :
    ∀ (T : Type) (s : MruArena T) (c : T → Bool) (n : T → T) (j : Nat),
      (∀ k ∈ s.list, slotMatches s.entries c k = false) →
      (s.find_or_alloc_handle c n).handle = some j →
        (s.find_or_alloc_handle c n).initRan = true ∧
        ∃ pre post, s.list = pre ++ j :: post ∧
          slotFree s.entries j = true ∧
          ∀ k ∈ post, slotFree s.entries k = false := by
  intro T s c n j hnm hh
  cases hsc : MruArena.foaScan s.entries c s.list none with
  | matched m =>
    obtain ⟨pre, post, ho, hpre, hm⟩ :=
      MruArena.mruFoaScan_matched_spec s.entries c s.list none m hsc
    have : slotMatches s.entries c m = false := hnm m (by
      rw [ho]
      exact List.mem_append_right pre (List.mem_cons_self m post))
    rw [hm] at this
    cases this
  | noMatch acc =>
    cases acc with
    | none =>
      have hres : s.find_or_alloc_handle c n = ⟨none, s, false⟩ := by
        simp [MruArena.find_or_alloc_handle, hsc]
      rw [hres] at hh
      cases hh
    | some m =>
      rcases MruArena.foaScan_empty_aux s.entries c s.list none m hnm hsc
        with ⟨hacc, _⟩ | ⟨pre, post, ho, hfree, hpost⟩
      · cases hacc
      · have hgm : ∃ e, s.entries[m]? = some e := by
          unfold slotFree at hfree
          match hg : s.entries[m]? with
          | some e => exact ⟨e, rfl⟩
          | none => rw [hg] at hfree; cases hfree
        obtain ⟨e, hg⟩ := hgm
        have hres : s.find_or_alloc_handle c n =
            ⟨some m, ⟨s.entries.set m ⟨1, n e.data⟩, s.list⟩, true⟩ := by
          simp [MruArena.find_or_alloc_handle, hsc, hg]
        rw [hres] at hh
        cases hh
        exact ⟨by rw [hres], pre, post, ho, hfree, hpost⟩

/-- C5 witness: the fallback characterization applied to the concrete
three-slot arena of the counterexample: the chosen slot 2 is the last
unreferenced slot in scan order. -/
theorem mruFoa_fallback_last_free_witness :
    (MruArena.find_or_alloc_handle
      (⟨[⟨0, 10⟩, ⟨1, 11⟩, ⟨0, 12⟩], [0, 1, 2]⟩ : MruArena Nat)
      (fun _ => false) id).initRan = true ∧
    ∃ pre post,
      (⟨[⟨0, 10⟩, ⟨1, 11⟩, ⟨0, 12⟩], [0, 1, 2]⟩ : MruArena Nat).list =
        pre ++ 2 :: post ∧
      slotFree (⟨[⟨0, 10⟩, ⟨1, 11⟩, ⟨0, 12⟩], [0, 1, 2]⟩ :
        MruArena Nat).entries 2 = true ∧
      ∀ k ∈ post, slotFree (⟨[⟨0, 10⟩, ⟨1, 11⟩, ⟨0, 12⟩], [0, 1, 2]⟩ :
        MruArena Nat).entries k = false :=
  mruFoa_fallback_last_free Nat ⟨[⟨0, 10⟩, ⟨1, 11⟩, ⟨0, 12⟩], [0, 1, 2]⟩
    (fun _ => false) id 2 (by decide) (by decide)

/-- C4 (amended): a dealloc that brings a slot's refcount to 0 unlinks the
slot and relinks it at the back of the recency list, and `alloc_handle`
consumes candidates starting from that same back end (the first
unreferenced slot of the reversed list), so freshly freed slots are reused
newest-released-first.  Consequently, in the capacity-3 scenario — slots
A, B, C all at refcount 1, B then A released — the next two allocations
reuse A's storage and then B's storage, the reverse of the release order
(one consistent direction, but the opposite of a least-recently-freed
policy). -/
theorem mru_relink_and_alloc_direction :
    (∀ (T : Type) (s : MruArena T) (i : Nat) (fin : T → T),
      mruRefcntAt s i = 1 →
        (s.dealloc i fin).arena.list = s.list.erase i ++ [i]) ∧
    (∀ (T : Type) (s : MruArena T) (f : T → T) (j : Nat),
      (s.alloc_handle f).handle = some j →
        ∃ pre post, s.list.reverse = pre ++ j :: post ∧
          (∀ k ∈ pre, slotFree s.entries k = false) ∧
          slotFree s.entries j = true) ∧
    ((MruArena.alloc_handle
        (MruArena.dealloc (MruArena.dealloc
          (⟨[⟨1, 100⟩, ⟨1, 101⟩, ⟨1, 102⟩], [2, 1, 0]⟩ : MruArena Nat)
          1 id).arena 0 id).arena (fun _ => 200)).handle = some 0 ∧
      (MruArena.alloc_handle
        (MruArena.alloc_handle
          (MruArena.dealloc (MruArena.dealloc
            (⟨[⟨1, 100⟩, ⟨1, 101⟩, ⟨1, 102⟩], [2, 1, 0]⟩ : MruArena Nat)
            1 id).arena 0 id).arena (fun _ => 200)).arena
        (fun _ => 201)).handle = some 1) := by
  refine ⟨?_, ?_, by decide⟩
  · intro T s i fin h
    obtain ⟨e, hg, hrc⟩ := mru_get_of_refcntAt_pos s i (by omega)
    rw [h] at hrc
    simp [MruArena.dealloc, hg, hrc]
  · intro T s f j hh
    rcases mru_alloc_handle_shape s f with hres |
      ⟨m, e, pre, post, hg, hr, ho, hpre, hres⟩
    · rw [hres] at hh
      cases hh
    · rw [hres] at hh
      cases hh
      refine ⟨pre, post, ho, hpre, ?_⟩
      simp [slotFree, hg, hr]

/-- C4 witness: relink of a freed slot to the back and the
first-free-from-the-back shape of a successful allocation, at concrete
one-slot arenas. -/
theorem mru_relink_and_alloc_direction_witness :
    (MruArena.dealloc (⟨[⟨1, 0⟩], [0]⟩ : MruArena Nat) 0 id).arena.list =
      ([0] : List Nat).erase 0 ++ [0] ∧
    ∃ pre post,
      (⟨[⟨0, 3⟩], [0]⟩ : MruArena Nat).list.reverse = pre ++ 0 :: post ∧
      (∀ k ∈ pre, slotFree (⟨[⟨0, 3⟩], [0]⟩ : MruArena Nat).entries k =
        false) ∧
      slotFree (⟨[⟨0, 3⟩], [0]⟩ : MruArena Nat).entries 0 = true :=
  ⟨mru_relink_and_alloc_direction.1 Nat ⟨[⟨1, 0⟩], [0]⟩ 0 id (by decide),
    mru_relink_and_alloc_direction.2.1 Nat ⟨[⟨0, 3⟩], [0]⟩ id 0 (by decide)⟩

/-! Step-level finalize lemmas for C3. -/

theorem refcntAt_set_cases {T : Type} (s : ArrayArena T) (j : Nat)
    (ent : ArrayEntry T) (i : Nat) :
    refcntAt (s.set j ent) i = refcntAt s i ∨
    (i = j ∧ refcntAt (s.set j ent) i = ent.refcnt) := by
  rcases getElem?_set_cases s j ent i with h | ⟨hij, h⟩
  · left
    simp [refcntAt, h]
  · right
    exact ⟨hij, by simp [refcntAt, h]⟩

theorem mruRefcntAt_set_cases {T : Type} (s : MruArena T) (l2 : List Nat)
    (j : Nat) (ent : MruEntry T) (i : Nat) :
    mruRefcntAt ⟨s.entries.set j ent, l2⟩ i = mruRefcntAt s i ∨
    (i = j ∧ mruRefcntAt ⟨s.entries.set j ent, l2⟩ i = ent.refcnt) := by
  rcases getElem?_set_cases s.entries j ent i with h | ⟨hij, h⟩
  · left
    simp [mruRefcntAt, h]
  · right
    exact ⟨hij, by simp [mruRefcntAt, h]⟩

theorem dealloc_finObs_iff {T : Type} (s : ArrayArena T) (m : Nat)
    (fin : T → T) :
    (ArrayArena.dealloc s m fin).finObs.isSome = true ↔
    refcntAt s m = 1 := by
  rcases dealloc_shape s m fin with ⟨hg, hres⟩ | ⟨e, hg, hr, hres⟩ |
    ⟨e, hg, hr, hres⟩
  · rw [hres]
    simp [refcntAt, hg]
  · rw [hres]
    simp [refcntAt, hg, hr]
  · rw [hres]
    simp [refcntAt, hg, hr]

theorem mru_dealloc_finObs_iff {T : Type} (s : MruArena T) (m : Nat)
    (fin : T → T) :
    (MruArena.dealloc s m fin).finObs.isSome = true ↔
    mruRefcntAt s m = 1 := by
  rcases mru_dealloc_shape s m fin with ⟨hg, hres⟩ | ⟨e, hg, hr, hres⟩ |
    ⟨e, hg, hr, hres⟩
  · rw [hres]
    simp [mruRefcntAt, hg]
  · rw [hres]
    simp [mruRefcntAt, hg, hr]
  · rw [hres]
    simp [mruRefcntAt, hg, hr]

theorem arrayStep_fin_iff {T : Type} (s : ArrayArena T) (op : ArrayOp T)
    (i : Nat) :
    (s.step op).2 = some i ↔
    (∃ f, op = ArrayOp.dealloc i f) ∧ refcntAt s i = 1 := by
  cases op with
  | foa c n =>
    simp only [ArrayArena.step]
    constructor
    · intro h
      cases h
    · rintro ⟨⟨f, hf⟩, _⟩
      cases hf
  | alloc f =>
    simp only [ArrayArena.step]
    constructor
    · intro h
      cases h
    · rintro ⟨⟨g, hf⟩, _⟩
      cases hf
  | dup m =>
    simp only [ArrayArena.step]
    constructor
    · intro h
      cases h
    · rintro ⟨⟨g, hf⟩, _⟩
      cases hf
  | dealloc m fin =>
    simp only [ArrayArena.step]
    constructor
    · intro h
      by_cases hs : (ArrayArena.dealloc s m fin).finObs.isSome = true
      · rw [if_pos hs] at h
        cases h
        exact ⟨⟨fin, rfl⟩, (dealloc_finObs_iff s i fin).mp hs⟩
      · rw [if_neg hs] at h
        cases h
    · rintro ⟨⟨f, hf⟩, h1⟩
      cases hf
      rw [if_pos ((dealloc_finObs_iff s i fin).mpr h1)]

theorem mruStep_fin_iff {T : Type} (s : MruArena T) (op : MruOp T)
    (i : Nat) :
    (s.step op).2 = some i ↔
    (∃ f, op = MruOp.dealloc i f) ∧ mruRefcntAt s i = 1 := by
  cases op with
  | foa c n =>
    simp only [MruArena.step]
    constructor
    · intro h
      cases h
    · rintro ⟨⟨f, hf⟩, _⟩
      cases hf
  | alloc f =>
    simp only [MruArena.step]
    constructor
    · intro h
      cases h
    · rintro ⟨⟨g, hf⟩, _⟩
      cases hf
  | dup m =>
    simp only [MruArena.step]
    constructor
    · intro h
      cases h
    · rintro ⟨⟨g, hf⟩, _⟩
      cases hf
  | dealloc m fin =>
    simp only [MruArena.step]
    constructor
    · intro h
      by_cases hs : (MruArena.dealloc s m fin).finObs.isSome = true
      · rw [if_pos hs] at h
        cases h
        exact ⟨⟨fin, rfl⟩, (mru_dealloc_finObs_iff s i fin).mp hs⟩
      · rw [if_neg hs] at h
        cases h
    · rintro ⟨⟨f, hf⟩, h1⟩
      cases hf
      rw [if_pos ((mru_dealloc_finObs_iff s i fin).mpr h1)]

theorem arrayStep_fin_zero {T : Type} (s : ArrayArena T) (op : ArrayOp T)
    (i : Nat) (h : (s.step op).2 = some i) :
    refcntAt (s.step op).1 i = 0 := by
  obtain ⟨⟨f, hf⟩, h1⟩ := (arrayStep_fin_iff s op i).mp h
  subst hf
  obtain ⟨e, hg, hrc⟩ := get_of_refcntAt_pos s i (by omega)
  rw [h1] at hrc
  simp only [ArrayArena.step]
  have hres : ArrayArena.dealloc s i f = ⟨s.set i ⟨0, f e.data⟩, some 1⟩ := by
    simp [ArrayArena.dealloc, hg, hrc]
  rw [hres]
  simp [refcntAt, getElem?_set_same s i e ⟨0, f e.data⟩ hg]

theorem mruStep_fin_zero {T : Type} (s : MruArena T) (op : MruOp T)
    (i : Nat) (h : (s.step op).2 = some i) :
    mruRefcntAt (s.step op).1 i = 0 := by
  obtain ⟨⟨f, hf⟩, h1⟩ := (mruStep_fin_iff s op i).mp h
  subst hf
  obtain ⟨e, hg, hrc⟩ := mru_get_of_refcntAt_pos s i (by omega)
  rw [h1] at hrc
  simp only [MruArena.step]
  have hres : MruArena.dealloc s i f =
      ⟨⟨s.entries.set i ⟨0, f e.data⟩, s.list.erase i ++ [i]⟩,
        some (1, s.list)⟩ := by
    simp [MruArena.dealloc, hg, hrc]
  rw [hres]
  simp [mruRefcntAt, getElem?_set_same s.entries i e ⟨0, f e.data⟩ hg]

theorem arrayStep_drop_iff {T : Type} (s : ArrayArena T) (op : ArrayOp T)
    (i : Nat) :
    (s.step op).2 = some i ↔
    (refcntAt s i = 1 ∧ refcntAt (s.step op).1 i = 0) := by
  constructor
  · intro h
    exact ⟨((arrayStep_fin_iff s op i).mp h).2, arrayStep_fin_zero s op i h⟩
  · rintro ⟨h1, h0⟩
    cases op with
    | foa c n =>
      exfalso
      simp only [ArrayArena.step] at h0
      rcases find_or_alloc_handle_shape s c n with hres |
        ⟨j, e, hg, hr, hc, hres⟩ | ⟨j, e, hg, hr, hres⟩
      · simp only [hres] at h0
        omega
      · simp only [hres] at h0
        rcases refcntAt_set_cases s j ⟨e.refcnt + 1, e.data⟩ i with hcc |
          ⟨him, hcc⟩
        · omega
        · simp only at hcc
          omega
      · simp only [hres] at h0
        rcases refcntAt_set_cases s j ⟨1, n e.data⟩ i with hcc | ⟨him, hcc⟩
        · omega
        · simp only at hcc
          omega
    | alloc f =>
      exfalso
      simp only [ArrayArena.step] at h0
      rcases alloc_handle_shape s f with hres | ⟨j, e, hg, hr, hres⟩
      · simp only [hres] at h0
        omega
      · simp only [hres] at h0
        rcases refcntAt_set_cases s j ⟨1, f e.data⟩ i with hcc | ⟨him, hcc⟩
        · omega
        · simp only at hcc
          omega
    | dup m =>
      exfalso
      simp only [ArrayArena.step] at h0
      rcases dup_shape s m with hres | ⟨e, hg, hres⟩
      · rw [hres] at h0
        omega
      · rw [hres] at h0
        rcases refcntAt_set_cases s m ⟨e.refcnt + 1, e.data⟩ i with hcc |
          ⟨him, hcc⟩
        · omega
        · simp only at hcc
          omega
    | dealloc m fin =>
      simp only [ArrayArena.step] at h0 ⊢
      rcases dealloc_shape s m fin with ⟨hg, hres⟩ | ⟨e, hg, hr, hres⟩ |
        ⟨e, hg, hr, hres⟩
      · simp only [hres] at h0
        omega
      · simp only [hres] at h0 ⊢
        rcases refcntAt_set_cases s m ⟨0, fin e.data⟩ i with hcc |
          ⟨him, hcc⟩
        · omega
        · subst him
          simp
      · exfalso
        simp only [hres] at h0
        rcases refcntAt_set_cases s m ⟨e.refcnt - 1, e.data⟩ i with hcc |
          ⟨him, hcc⟩
        · omega
        · subst him
          have : refcntAt s i = e.refcnt := by
            simp [refcntAt, hg]
          omega

theorem mruStep_drop_iff {T : Type} (s : MruArena T) (op : MruOp T)
    (i : Nat) :
    (s.step op).2 = some i ↔
    (mruRefcntAt s i = 1 ∧ mruRefcntAt (s.step op).1 i = 0) := by
  constructor
  · intro h
    exact ⟨((mruStep_fin_iff s op i).mp h).2, mruStep_fin_zero s op i h⟩
  · rintro ⟨h1, h0⟩
    cases op with
    | foa c n =>
      exfalso
      simp only [MruArena.step] at h0
      rcases mru_find_or_alloc_handle_shape s c n with hres |
        ⟨j, e, pre, post, hg, hc, ho, hpre, hres⟩ | ⟨j, e, hg, hr, hres⟩
      · simp only [hres] at h0
        omega
      · simp only [hres] at h0
        rcases mruRefcntAt_set_cases s s.list j ⟨e.refcnt + 1, e.data⟩ i
          with hcc | ⟨him, hcc⟩
        · omega
        · simp only at hcc
          omega
      · simp only [hres] at h0
        rcases mruRefcntAt_set_cases s s.list j ⟨1, n e.data⟩ i with hcc |
          ⟨him, hcc⟩
        · omega
        · simp only at hcc
          omega
    | alloc f =>
      exfalso
      simp only [MruArena.step] at h0
      rcases mru_alloc_handle_shape s f with hres |
        ⟨j, e, pre, post, hg, hr, ho, hpre, hres⟩
      · simp only [hres] at h0
        omega
      · simp only [hres] at h0
        rcases mruRefcntAt_set_cases s s.list j ⟨1, f e.data⟩ i with hcc |
          ⟨him, hcc⟩
        · omega
        · simp only at hcc
          omega
    | dup m =>
      exfalso
      simp only [MruArena.step] at h0
      rcases mru_dup_shape s m with hres | ⟨e, hg, hres⟩
      · rw [hres] at h0
        omega
      · rw [hres] at h0
        rcases mruRefcntAt_set_cases s s.list m ⟨e.refcnt + 1, e.data⟩ i
          with hcc | ⟨him, hcc⟩
        · omega
        · simp only at hcc
          omega
    | dealloc m fin =>
      simp only [MruArena.step] at h0 ⊢
      rcases mru_dealloc_shape s m fin with ⟨hg, hres⟩ | ⟨e, hg, hr, hres⟩ |
        ⟨e, hg, hr, hres⟩
      · simp only [hres] at h0
        omega
      · simp only [hres] at h0 ⊢
        rcases mruRefcntAt_set_cases s (s.list.erase m ++ [m]) m
          ⟨0, fin e.data⟩ i with hcc | ⟨him, hcc⟩
        · omega
        · subst him
          simp
      · exfalso
        simp only [hres] at h0
        rcases mruRefcntAt_set_cases s
          (if e.refcnt - 1 = 0 then s.list.erase m ++ [m] else s.list) m
          ⟨e.refcnt - 1, e.data⟩ i with hcc | ⟨him, hcc⟩
        · omega
        · subst him
          have : mruRefcntAt s i = e.refcnt := by
            simp [mruRefcntAt, hg]
          omega

theorem arrayCounts_eq {T : Type} (i : Nat) :
    ∀ (ops : List (ArrayOp T)) (s : ArrayArena T),
      ArrayArena.finCount s i ops = ArrayArena.dropCount s i ops
  | [], _ => rfl
  | op :: rest, s => by
    simp only [ArrayArena.finCount, ArrayArena.dropCount]
    have hind : (if (s.step op).2 = some i then 1 else 0) =
        (if refcntAt s i = 1 ∧ refcntAt (s.step op).1 i = 0 then 1
          else 0) := by
      by_cases h : (s.step op).2 = some i
      · rw [if_pos h, if_pos ((arrayStep_drop_iff s op i).mp h)]
      · rw [if_neg h, if_neg (fun hc => h ((arrayStep_drop_iff s op i).mpr
          hc))]
    rw [hind, arrayCounts_eq i rest (s.step op).1]

theorem mruCounts_eq {T : Type} (i : Nat) :
    ∀ (ops : List (MruOp T)) (s : MruArena T),
      MruArena.finCount s i ops = MruArena.dropCount s i ops
  | [], _ => rfl
  | op :: rest, s => by
    simp only [MruArena.finCount, MruArena.dropCount]
    have hind : (if (s.step op).2 = some i then 1 else 0) =
        (if mruRefcntAt s i = 1 ∧ mruRefcntAt (s.step op).1 i = 0 then 1
          else 0) := by
      by_cases h : (s.step op).2 = some i
      · rw [if_pos h, if_pos ((mruStep_drop_iff s op i).mp h)]
      · rw [if_neg h, if_neg (fun hc => h ((mruStep_drop_iff s op i).mpr
          hc))]
    rw [hind, mruCounts_eq i rest (s.step op).1]

/-- C3: `finalize` runs exactly once per occupied lifetime.  For both
arenas: a step invokes `finalize` on slot `i` exactly when the operation is
a `dealloc` of `i` and the slot's refcount is 1 (so never at a dealloc that
leaves the refcount positive, and never in `find_or_alloc_handle`,
`alloc_handle` or `dup`); such a step leaves the refcount at 0; and along
any operation sequence the number of `finalize` invocations on slot `i`
equals the number of steps at which its refcount drops from 1 to 0 — one
per occupied lifetime, never twice. -/
theorem finalize_exactly_on_last_release :
    (∀ (T : Type) (s : ArrayArena T) (op : ArrayOp T) (i : Nat),
      (s.step op).2 = some i ↔
        (∃ f, op = ArrayOp.dealloc i f) ∧ refcntAt s i = 1) ∧
    (∀ (T : Type) (s : ArrayArena T) (op : ArrayOp T) (i : Nat),
      (s.step op).2 = some i → refcntAt (s.step op).1 i = 0) ∧
    (∀ (T : Type) (s : ArrayArena T) (i : Nat) (ops : List (ArrayOp T)),
      ArrayArena.finCount s i ops = ArrayArena.dropCount s i ops) ∧
    (∀ (T : Type) (s : MruArena T) (op : MruOp T) (i : Nat),
      (s.step op).2 = some i ↔
        (∃ f, op = MruOp.dealloc i f) ∧ mruRefcntAt s i = 1) ∧
    (∀ (T : Type) (s : MruArena T) (op : MruOp T) (i : Nat),
      (s.step op).2 = some i → mruRefcntAt (s.step op).1 i = 0) ∧
    (∀ (T : Type) (s : MruArena T) (i : Nat) (ops : List (MruOp T)),
      MruArena.finCount s i ops = MruArena.dropCount s i ops) :=
  ⟨fun _ s op i => arrayStep_fin_iff s op i,
    fun _ s op i => arrayStep_fin_zero s op i,
    fun _ s i ops => arrayCounts_eq i ops s,
    fun _ s op i => mruStep_fin_iff s op i,
    fun _ s op i => mruStep_fin_zero s op i,
    fun _ s i ops => mruCounts_eq i ops s⟩

/-- C3 witness: a dealloc of a refcount-1 slot reports the finalize event,
in both arenas. -/
theorem finalize_exactly_on_last_release_witness :
    (ArrayArena.step ([⟨1, 9⟩] : ArrayArena Nat)
      (ArrayOp.dealloc 0 id)).2 = some 0 ∧
    (MruArena.step (⟨[⟨1, 9⟩], [0]⟩ : MruArena Nat)
      (MruOp.dealloc 0 id)).2 = some 0 :=
  ⟨(finalize_exactly_on_last_release.1 Nat [⟨1, 9⟩]
      (ArrayOp.dealloc 0 id) 0).mpr ⟨⟨id, rfl⟩, rfl⟩,
    (finalize_exactly_on_last_release.2.2.2.1 Nat ⟨[⟨1, 9⟩], [0]⟩
      (MruOp.dealloc 0 id) 0).mpr ⟨⟨id, rfl⟩, rfl⟩⟩

end Rv6
